import Mathlib

/-!
Verification of the `ddsd` DDS decoding library.

This file shallowly embeds the numeric conversion kernels
(`src/decode/convert.rs`), the decoder argument validation
(`src/decode/decoder.rs`), the channel adapter (`src/decode/adapt.rs`),
the FourCC/DXGI detection tables (`src/detect.rs`) and the geometry types
(`src/format.rs`) in Lean, and proves the specification's claims about them.

Machine integers are modelled as `ℕ` (or `ℤ` where the source uses signed
arithmetic) with explicit `% 2^w` reductions exactly where the source's
fixed-width types could overflow or where a narrowing `as` cast occurs.
`f32` arithmetic is modelled exactly (IEEE-754 binary32, round to nearest,
ties to even) by dyadic numbers together with Inf/NaN special values.
-/

set_option maxRecDepth 100000
set_option maxHeartbeats 4000000

/-- Rounded rescaling `round(a / b)` on nonnegative rationals, written with
integer arithmetic: `⌊(2a + b) / (2b)⌋` (round half away from zero, which for
the quotients appearing in the spec never ties with half anyway). -/
def roundDiv (a b : ℕ) : ℕ := (2 * a + b) / (2 * b)

/-! ### Unorm conversion kernels (`src/decode/convert.rs`, modules `n1` .. `n16`)

Each Rust module `nK` converts from a `K`-bit Unorm value. Inputs are `u8`
(`u16` for `n10`/`n16`); a `debug_assert!` bounds them by `2^K - 1`.
-/

namespace n1

/-- `n1::n8` from the source: 0 stays 0, everything else becomes `u8::MAX`. -/
def n8 (x : ℕ) : ℕ := if x = 0 then 0 else 255

/-- `n1::n16` from the source. -/
def n16 (x : ℕ) : ℕ := if x = 0 then 0 else 65535

end n1

namespace n2

/-- `n2::n8`: `x * 85` in `u8` (no overflow for asserted `x ≤ 3`). -/
def n8 (x : ℕ) : ℕ := x * 85 % 256

/-- `n2::n16`: `x as u16 * 21845`. -/
def n16 (x : ℕ) : ℕ := x * 21845 % 65536

end n2

namespace n4

/-- `n4::n8`: `x * 17` in `u8`. -/
def n8 (x : ℕ) : ℕ := x * 17 % 256

/-- `n4::n16`: `x as u16 * 4369`. -/
def n16 (x : ℕ) : ℕ := x * 4369 % 65536

end n4

namespace n5

/-- `n5::n8`: `((x as u16 * 2108 + 92) >> 8) as u8`. -/
def n8 (x : ℕ) : ℕ := (x * 2108 + 92) % 65536 / 2 ^ 8 % 256

/-- `n5::n16`: `((x as u32 * 138547200) >> 16) as u16`. -/
def n16 (x : ℕ) : ℕ := x * 138547200 % 2 ^ 32 / 2 ^ 16 % 65536

end n5

namespace n6

/-- `n6::n8`: `((x as u16 * 1036 + 132) >> 8) as u8`. -/
def n8 (x : ℕ) : ℕ := (x * 1036 + 132) % 65536 / 2 ^ 8 % 256

/-- `n6::n16`: `((x as u32 * 68173056 + 30976) >> 16) as u16`. -/
def n16 (x : ℕ) : ℕ := (x * 68173056 + 30976) % 2 ^ 32 / 2 ^ 16 % 65536

end n6

namespace n8m

/-- `n8::n16`: `x as u16 * 257` (named `n8m` because `n8` is taken by the
inner function names of the other width modules). -/
def n16 (x : ℕ) : ℕ := x * 257 % 65536

end n8m

namespace n10

/-- `n10::n8`: `((x as u32 * 16336 + 32656) >> 16) as u8`. -/
def n8 (x : ℕ) : ℕ := (x * 16336 + 32656) % 2 ^ 32 / 2 ^ 16 % 256

/-- `n10::n16`: `((x as u32 * 4198340 + 32660) >> 16) as u16`. -/
def n16 (x : ℕ) : ℕ := (x * 4198340 + 32660) % 2 ^ 32 / 2 ^ 16 % 65536

end n10

namespace n16m

/-- `n16::n8`: `((x as u32 * 255 + 32895) >> 16) as u8`. -/
def n8 (x : ℕ) : ℕ := (x * 255 + 32895) % 2 ^ 32 / 2 ^ 16 % 256

end n16m

/-! ### Snorm conversion kernels (`src/decode/convert.rs`, modules `s8`, `s16`)

Inputs are the unsigned bit patterns (`u8` / `u16`). Note that `ℕ`
subtraction is truncated, which models Rust's `saturating_sub` on unsigned
integers directly.
-/

namespace s8

/-- `s8::norm`: `x.wrapping_add(128).saturating_sub(1)`, bringing the value
into the range `[0, 254]`. -/
def norm (x : ℕ) : ℕ := (x + 128) % 256 - 1

/-- `s8::n8`: `((norm x as u16 * 258 + 2) >> 8) as u8` (no `u16` overflow since
`norm x ≤ 254`). -/
def n8 (x : ℕ) : ℕ := (norm x * 258 + 2) / 2 ^ 8 % 256

/-- `s8::n16`: `((norm x as u32 * 16909064 + 32520) >> 16) as u16`. -/
def n16 (x : ℕ) : ℕ := (norm x * 16909064 + 32520) / 2 ^ 16 % 65536

end s8

namespace s16

/-- `s16::norm`: `x.wrapping_add(32768).saturating_sub(1)`, bringing the value
into the range `[0, 65534]`. -/
def norm (x : ℕ) : ℕ := (x + 32768) % 65536 - 1

/-- `s16::n8`: `((norm x as u32 * 65282 + 8388354) >> 24) as u8`. -/
def n8 (x : ℕ) : ℕ := (norm x * 65282 + 8388354) / 2 ^ 24 % 256

/-- `s16::n16`: `((norm x as u32 * 65538 + 2) >> 16) as u16`. -/
def n16 (x : ℕ) : ℕ := (norm x * 65538 + 2) / 2 ^ 16 % 65536

end s16

/-! Exact model of IEEE-754 binary32 (`f32`) values and operations. -/

inductive F32 where
  | fin (m : ℤ) (e : ℤ)
  | inf
  | neginf
  | nan
deriving DecidableEq

/-- Fueled floor-log2 (structural recursion so that it reduces in the kernel). -/
def log2go : ℕ → ℕ → ℕ
  | 0, _ => 0
  | fuel+1, n => if 2 ≤ n then log2go fuel (n / 2) + 1 else 0

/-- Floor of log2; correct for every `n < 2^300` (all numbers in this
development are far smaller). -/
def ilog2 (n : ℕ) : ℕ := log2go 300 n

/-- Round `n / 2^t` to the nearest integer, ties to even. -/
def roundHTE (n : ℤ) (t : ℕ) : ℤ :=
  if t = 0 then n
  else if (2 : ℤ) ^ (t - 1) < n % 2 ^ t then n / 2 ^ t + 1
  else if n % 2 ^ t < (2 : ℤ) ^ (t - 1) then n / 2 ^ t
  else if n / 2 ^ t % 2 = 0 then n / 2 ^ t else n / 2 ^ t + 1

def signedInf (n : ℤ) : F32 := if 0 < n then F32.inf else F32.neginf

/-- Round the exact value `n · 2^e` to a binary32 value (round to nearest,
ties to even; overflow to the correctly-signed infinity). The result is
represented non-normalized as `.fin m e` with value `m · 2^e`. -/
def roundAtCore (n e E eff : ℤ) : F32 :=
  if eff - 23 - e ≤ 0 then
    if 128 ≤ E then signedInf n else .fin n e
  else
    if 105 ≤ eff then
      if 2 ^ (151 - eff).toNat ≤ (roundHTE n (eff - 23 - e).toNat).natAbs then signedInf n
      else .fin (roundHTE n (eff - 23 - e).toNat) (eff - 23)
    else .fin (roundHTE n (eff - 23 - e).toNat) (eff - 23)

def roundAt (n : ℤ) (e : ℤ) : F32 :=
  if n = 0 then .fin 0 0
  else roundAtCore n e ((ilog2 n.natAbs : ℤ) + e) (max ((ilog2 n.natAbs : ℤ) + e) (-126))

def F32.neg : F32 → F32
  | .fin m e => .fin (-m) e
  | .inf => .neginf
  | .neginf => .inf
  | .nan => .nan

def F32.add : F32 → F32 → F32
  | .nan, _ => .nan
  | _, .nan => .nan
  | .inf, .neginf => .nan
  | .neginf, .inf => .nan
  | .inf, _ => .inf
  | _, .inf => .inf
  | .neginf, _ => .neginf
  | _, .neginf => .neginf
  | .fin m1 e1, .fin m2 e2 =>
      if e1 ≤ e2 then roundAt (m1 + m2 * 2 ^ (e2 - e1).toNat) e1
      else roundAt (m1 * 2 ^ (e1 - e2).toNat + m2) e2

def F32.mul : F32 → F32 → F32
  | .nan, _ => .nan
  | _, .nan => .nan
  | .fin m _, .inf => if m = 0 then .nan else if 0 < m then .inf else .neginf
  | .inf, .fin m _ => if m = 0 then .nan else if 0 < m then .inf else .neginf
  | .fin m _, .neginf => if m = 0 then .nan else if 0 < m then .neginf else .inf
  | .neginf, .fin m _ => if m = 0 then .nan else if 0 < m then .neginf else .inf
  | .inf, .inf => .inf
  | .inf, .neginf => .neginf
  | .neginf, .inf => .neginf
  | .neginf, .neginf => .inf
  | .fin m1 e1, .fin m2 e2 => roundAt (m1 * m2) (e1 + e2)

/-- Rust `as u8` on an `f32`: truncate toward zero, saturating; NaN to 0. -/
def F32.toU8 : F32 → ℕ
  | .fin m e =>
      if m ≤ 0 then 0
      else min (if 0 ≤ e then m.toNat * 2 ^ e.toNat else m.toNat / 2 ^ (-e).toNat) 255
  | .inf => 255
  | .neginf => 0
  | .nan => 0

/-- Rust `as u16` on an `f32`. -/
def F32.toU16 : F32 → ℕ
  | .fin m e =>
      if m ≤ 0 then 0
      else min (if 0 ≤ e then m.toNat * 2 ^ e.toNat else m.toNat / 2 ^ (-e).toNat) 65535
  | .inf => 65535
  | .neginf => 0
  | .nan => 0

/-- Rust `n as f32` for an unsigned integer. -/
def ofNatF32 (n : ℕ) : F32 := roundAt n 0

/-- `two_powi` from `src/util.rs`: builds `2^e` from its bit pattern; exact. -/
def two_powi (e : ℤ) : F32 := .fin 1 e

def f32half : F32 := .fin 1 (-1)



/-! ### `B5G6R5` (`src/decode/convert.rs`) and a BC1 block decoder. -/

structure B5G6R5 where
  r5 : ℕ
  g6 : ℕ
  b5 : ℕ
deriving DecidableEq

namespace B5G6R5

/-- `B5G6R5::from_u16`. -/
def from_u16 (u : ℕ) : B5G6R5 :=
  { b5 := u &&& 0x1F, g6 := (u >>> 5) &&& 0x3F, r5 := (u >>> 11) &&& 0x1F }

/-- `B5G6R5::from_le_bytes`. -/
def from_le_bytes (b0 b1 : ℕ) : B5G6R5 := from_u16 (b0 + 256 * b1)

/-- `B5G6R5::to_n8`: per-channel Unorm5/6 to Unorm8. -/
def to_n8 (c : B5G6R5) : ℕ × ℕ × ℕ := (n5.n8 c.r5, n6.n8 c.g6, n5.n8 c.b5)

/-- `B5G6R5::one_third_color_rgb8`: nearest RGB8 color for
`self * 2/3 + color * 1/3` (all intermediate `u16`/`u32` arithmetic is
overflow-free for 5/6-bit channels). -/
def one_third_color_rgb8 (c color : B5G6R5) : ℕ × ℕ × ℕ :=
  ((( (c.r5 * 2 + color.r5) * 351 + 61) / 2 ^ 7) % 256,
   (( (c.g6 * 2 + color.g6) * 2763 + 1039) / 2 ^ 11) % 256,
   (( (c.b5 * 2 + color.b5) * 351 + 61) / 2 ^ 7) % 256)

/-- `B5G6R5::mid_color_rgb8`: nearest RGB8 color for `self * 1/2 + color * 1/2`. -/
def mid_color_rgb8 (c color : B5G6R5) : ℕ × ℕ × ℕ :=
  ((( (c.r5 + color.r5) * 1053 + 125) / 2 ^ 8) % 256,
   (( (c.g6 + color.g6) * 4145 + 1019) / 2 ^ 11) % 256,
   (( (c.b5 + color.b5) * 1053 + 125) / 2 ^ 8) % 256)

end B5G6R5

/-- Modelled from the spec: the BC1 block decoder itself is not under `src/`
(only its conversion helpers in `src/decode/convert.rs` are). Per spec §4.5,
a texel with 2-bit selector `sel` decodes, given the two RGB565 endpoints
`c0`, `c1` (as raw `u16` values), to: the endpoints for `sel ∈ {0,1}`; for
`sel = 2` the ⅔c0+⅓c1 color when `c0 > c1`, else the ½c0+½c1 "mid" color;
for `sel = 3` the ⅓c0+⅔c1 color when `c0 > c1`, else transparent black.
Interpolation uses the source's `one_third_color_rgb8` / `mid_color_rgb8`.
Output is RGBA-U8. -/
def bc1_pixel (c0 c1 : ℕ) (sel : ℕ) : ℕ × ℕ × ℕ × ℕ :=
  let e0 := B5G6R5.from_u16 c0
  let e1 := B5G6R5.from_u16 c1
  if sel = 0 then
    match e0.to_n8 with
    | (r, g, b) => (r, g, b, 255)
  else if sel = 1 then
    match e1.to_n8 with
    | (r, g, b) => (r, g, b, 255)
  else if sel = 2 then
    if c0 > c1 then
      match e0.one_third_color_rgb8 e1 with
      | (r, g, b) => (r, g, b, 255)
    else
      match e0.mid_color_rgb8 e1 with
      | (r, g, b) => (r, g, b, 255)
  else
    if c0 > c1 then
      match e1.one_third_color_rgb8 e0 with
      | (r, g, b) => (r, g, b, 255)
    else (0, 0, 0, 0)

/-- Modelled from the spec: decode one 8-byte BC1 block (given as 8 bytes)
to its 16 RGBA-U8 texels in row-major order. The first two little-endian
`u16` words are the endpoints `c0`, `c1`; the following little-endian `u32`
word is the 2-bit-per-texel index table, texel `k` using bits `2k, 2k+1`. -/
def bc1_decode_block (bytes : List ℕ) : List (ℕ × ℕ × ℕ × ℕ) :=
  match bytes with
  | [a0, a1, b0, b1, i0, i1, i2, i3] =>
      let c0 := a0 + 256 * a1
      let c1 := b0 + 256 * b1
      let idx := i0 + 256 * i1 + 65536 * i2 + 16777216 * i3
      (List.range 16).map fun k => bc1_pixel c0 c1 (idx >>> (2 * k) &&& 3)
  | _ => []

/-! ### Geometry and error types (`src/format.rs`; `DecodeError` from the
spec's §6 error list, since `src/error.rs` is not under `src/`). -/

/-- Modelled from the spec: the error enum (`error.rs` is not under `src/`);
only the variants relevant to the claims, with their payloads from §6. -/
inductive DecodeError where
  | memoryLimitExceeded
  | unexpectedBufferSize (expected : ℕ)
  | rowPitchTooSmall (required_minimum : ℕ)
  | rectBufferTooSmall (required_minimum : ℕ)
  | rectOutOfBounds
deriving DecidableEq

/-- `Channels` from `src/format.rs`. -/
inductive Channels where
  | grayscale
  | alpha
  | rgb
  | rgba
deriving DecidableEq

/-- `Channels::count`. -/
def Channels.count : Channels → ℕ
  | .grayscale => 1
  | .alpha => 1
  | .rgb => 3
  | .rgba => 4

/-- `Precision` from `src/format.rs`. -/
inductive Precision where
  | u8
  | u16
  | f32
deriving DecidableEq

/-- `Precision::size` in bytes. -/
def Precision.size : Precision → ℕ
  | .u8 => 1
  | .u16 => 2
  | .f32 => 4

/-- `ColorFormat` from `src/format.rs`. -/
structure ColorFormat where
  channels : Channels
  precision : Precision
deriving DecidableEq

/-- `ColorFormat::bytes_per_pixel`. -/
def ColorFormat.bytes_per_pixel (c : ColorFormat) : ℕ :=
  c.channels.count * c.precision.size

/-- `Size` from `src/format.rs` (`width`, `height` are `u32`). -/
structure Size where
  width : ℕ
  height : ℕ
deriving DecidableEq

/-- `Size::is_empty`. -/
def Size.is_empty (s : Size) : Prop := s.width = 0 ∨ s.height = 0

instance (s : Size) : Decidable s.is_empty := by
  unfold Size.is_empty
  infer_instance

/-- `Size::pixels`: `width as u64 * height as u64` (cannot overflow `u64`
for `u32` inputs). -/
def Size.pixels (s : Size) : ℕ := s.width * s.height

/-- `Rect` from `src/format.rs` (all fields `u32`). -/
structure Rect where
  x : ℕ
  y : ℕ
  width : ℕ
  height : ℕ
deriving DecidableEq

/-- `Rect::size`. -/
def Rect.size (r : Rect) : Size := ⟨r.width, r.height⟩

/-- `Rect::is_within_bounds`: the sums are computed in `u64`, so they cannot
overflow for `u32` fields; plain `ℕ` addition models this directly. -/
def Rect.is_within_bounds (r : Rect) (s : Size) : Prop :=
  r.x + r.width ≤ s.width ∧ r.y + r.height ≤ s.height

instance (r : Rect) (s : Size) : Decidable (r.is_within_bounds s) := by
  unfold Rect.is_within_bounds
  infer_instance

/-- `usize::MAX`; `usize` is modelled as 64-bit throughout. -/
def usizeMax : ℕ := 2 ^ 64 - 1

/-- `usize::saturating_mul`. -/
def satMul (a b : ℕ) : ℕ := min (a * b) usizeMax

/-! ### Decoder argument validation and dispatch (`src/decode/decoder.rs`).

The models are pure: the reader is an arbitrary type `R`, inner decode
functions are opaque parameters of type `R → Except DecodeError Unit × R`
(result and final reader state), and the dispatch returns the reader
unchanged on every path that does not invoke an inner decode function.
-/

/-- `DecodeContext` from `src/decode/decoder.rs`. -/
structure DecodeContext where
  color : ColorFormat
  size : Size
  memory_limit : ℕ
deriving DecidableEq

/-- `DecodeContext::reserve_bytes`: fails with `MemoryLimitExceeded` when the
remaining budget is smaller than `bytes`, otherwise deducts `bytes`. -/
def DecodeContext.reserve_bytes (ctx : DecodeContext) (bytes : ℕ) :
    Except DecodeError DecodeContext :=
  if ctx.memory_limit < bytes then .error .memoryLimitExceeded
  else .ok ⟨ctx.color, ctx.size, ctx.memory_limit - bytes⟩

/-- `DecodeContext::alloc::<T>`: `reserve_bytes(len * size_of::<T>())` then
allocate. The `usize` product wraps modulo `2^64` on overflow (release-mode
semantics); the allocation itself is abstracted to its length. -/
def DecodeContext.alloc (size_of_t : ℕ) (ctx : DecodeContext) (len : ℕ) :
    Except DecodeError (DecodeContext × ℕ) :=
  match ctx.reserve_bytes (len * size_of_t % 2 ^ 64) with
  | .error e => .error e
  | .ok ctx2 => .ok (ctx2, len)

/-- `Args::new`: requires the output buffer length to be exactly
`size.pixels().saturating_mul(bytes_per_pixel)` (saturating in `u64`, then
converted to `usize` with saturation — an identity on 64-bit targets). -/
def Args.new (output_len : ℕ) (ctx : DecodeContext) : Except DecodeError Unit :=
  if output_len ≠ satMul ctx.size.pixels ctx.color.bytes_per_pixel then
    .error (.unexpectedBufferSize (satMul ctx.size.pixels ctx.color.bytes_per_pixel))
  else .ok ()

/-- `RArgs::new`: the three pre-flight checks of the rect decoder, in source
order; pure (it never touches the reader). -/
def RArgs.new (output_len row_pitch : ℕ) (rect : Rect) (ctx : DecodeContext) :
    Except DecodeError Unit :=
  if ¬ rect.is_within_bounds ctx.size then .error .rectOutOfBounds
  else if row_pitch < satMul rect.width ctx.color.bytes_per_pixel then
    .error (.rowPitchTooSmall (satMul rect.width ctx.color.bytes_per_pixel))
  else if output_len < satMul row_pitch rect.height then
    .error (.rectBufferTooSmall (satMul row_pitch rect.height))
  else .ok ()

/-- `DecoderSet::decode`: validate the arguments, return early for empty
images, otherwise run the optimized decoder (on an exact color match) or the
inner decoder set. `inner`/`optimized` consume the reader; every other path
returns it unchanged. -/
def DecoderSet.decode {R : Type}
    (optimized : Option (ColorFormat × (R → Except DecodeError Unit × R)))
    (inner : R → Except DecodeError Unit × R) (color : ColorFormat) (reader : R)
    (size : Size) (output_len : ℕ) (memory_limit : ℕ) :
    Except DecodeError Unit × R :=
  match Args.new output_len ⟨color, size, memory_limit⟩ with
  | .error e => (.error e, reader)
  | .ok _ =>
      if size.is_empty then (.ok (), reader)
      else
        match optimized with
        | some (ocolor, ofn) => if ocolor = color then ofn reader else inner reader
        | none => inner reader

/-- `DecoderSet::decode_rect`: validate via `RArgs::new`, return early for
empty rects, otherwise run the inner rect decoder. -/
def DecoderSet.decode_rect {R : Type} (inner : R → Except DecodeError Unit × R)
    (color : ColorFormat) (reader : R) (size : Size) (rect : Rect)
    (output_len row_pitch : ℕ) (memory_limit : ℕ) :
    Except DecodeError Unit × R :=
  match RArgs.new output_len row_pitch rect ⟨color, size, memory_limit⟩ with
  | .error e => (.error e, reader)
  | .ok _ =>
      if rect.size.is_empty then (.ok (), reader)
      else inner reader

/-! ### Channel adapter (`src/decode/adapt.rs`).

Scalars of the three precisions are abstracted to a type `P` with the
`Norm` constants (`ZERO`, `HALF`, `ONE` from `src/decode/convert.rs`);
pixels are lists of scalars. An `Adapter` invocation is reified as an
action: call the processor directly, fill the output with a constant, or
map a per-pixel function over the processor's pixels.
-/

/-- The `Norm` trait constants from `src/decode/convert.rs`. -/
structure NormC (P : Type) where
  zero : P
  half : P
  one : P

/-- The action `adapt_for` performs on its `Adapter` argument. -/
inductive AdaptAction (P : Type) where
  | direct
  | fill (value : P)
  | map (f : List P → List P)

/-- `alpha_to_rgba` from `src/decode/adapt.rs` (pixels as scalar lists). -/
def alpha_to_rgba {P : Type} (n : NormC P) : List P → List P
  | [a] => [n.zero, n.zero, n.zero, a]
  | _ => []

/-- `grayscale_to_rgb`. -/
def grayscale_to_rgb {P : Type} : List P → List P
  | [g] => [g, g, g]
  | _ => []

/-- `grayscale_to_rgba`. -/
def grayscale_to_rgba {P : Type} (n : NormC P) : List P → List P
  | [g] => [g, g, g, n.one]
  | _ => []

/-- `rgb_to_grayscale`: takes the first (R) component. -/
def rgb_to_grayscale {P : Type} : List P → List P
  | [r, _, _] => [r]
  | _ => []

/-- `rgb_to_rgba`. -/
def rgb_to_rgba {P : Type} (n : NormC P) : List P → List P
  | [r, g, b] => [r, g, b, n.one]
  | _ => []

/-- `rgba_to_grayscale`: takes the first (R) component. -/
def rgba_to_grayscale {P : Type} : List P → List P
  | [r, _, _, _] => [r]
  | _ => []

/-- `rgba_to_alpha`. -/
def rgba_to_alpha {P : Type} : List P → List P
  | [_, _, _, a] => [a]
  | _ => []

/-- `rgba_to_rgb`: drops alpha. -/
def rgba_to_rgb {P : Type} : List P → List P
  | [r, g, b, _] => [r, g, b]
  | _ => []

/-- `adapt_for` from `src/decode/adapt.rs`: the (from, to) conversion table. -/
def adapt_for {P : Type} (n : NormC P) : Channels → Channels → AdaptAction P
  | .grayscale, .grayscale => .direct
  | .alpha, .alpha => .direct
  | .rgb, .rgb => .direct
  | .rgba, .rgba => .direct
  | .grayscale, .alpha => .fill n.one
  | .rgb, .alpha => .fill n.one
  | .alpha, .grayscale => .fill n.zero
  | .alpha, .rgb => .fill n.zero
  | .grayscale, .rgb => .map grayscale_to_rgb
  | .grayscale, .rgba => .map (grayscale_to_rgba n)
  | .alpha, .rgba => .map (alpha_to_rgba n)
  | .rgb, .grayscale => .map rgb_to_grayscale
  | .rgb, .rgba => .map (rgb_to_rgba n)
  | .rgba, .grayscale => .map rgba_to_grayscale
  | .rgba, .alpha => .map rgba_to_alpha
  | .rgba, .rgb => .map rgba_to_rgb

/-- `adapt`: short-circuits to `direct` when `from == to`, otherwise
dispatches by precision to `adapt_for` (precision-generic here). -/
def adapt {P : Type} (n : NormC P) (cfrom cto : Channels) : AdaptAction P :=
  if cfrom = cto then .direct else adapt_for n cfrom cto

/-- The effect of an adapter action on the processor's pixel stream: `direct`
passes the stream through, `fill` writes the constant into every output
scalar (ignoring the stream), `map` converts each pixel. -/
def AdaptAction.apply {P : Type} (a : AdaptAction P) (cto : Channels)
    (pixels : List (List P)) : List (List P) :=
  match a with
  | .direct => pixels
  | .fill v => pixels.map fun _ => List.replicate cto.count v
  | .map f => pixels.map f

/-! ### FourCC / DXGI detection (`src/detect.rs`). -/

/-- `FourCC`: a `u32` tag. The named constants live in the header module,
which is not under `src/`; they are modelled from the spec as the standard
ASCII codes (little-endian `u32`). -/
structure FourCC where
  val : ℕ
deriving DecidableEq

namespace FourCC

def DXT1 : FourCC := ⟨0x31545844⟩
def DXT2 : FourCC := ⟨0x32545844⟩
def DXT3 : FourCC := ⟨0x33545844⟩
def DXT4 : FourCC := ⟨0x34545844⟩
def DXT5 : FourCC := ⟨0x35545844⟩
def ATI1 : FourCC := ⟨0x31495441⟩
def ATI2 : FourCC := ⟨0x32495441⟩
def BC4U : FourCC := ⟨0x55344342⟩
def BC4S : FourCC := ⟨0x53344342⟩
def BC5U : FourCC := ⟨0x55354342⟩
def BC5S : FourCC := ⟨0x53354342⟩
def RGBG : FourCC := ⟨0x47424752⟩
def GRGB : FourCC := ⟨0x42475247⟩
def YUY2 : FourCC := ⟨0x32595559⟩

end FourCC

/-- Modelled from the spec: the `DxgiFormat` enum lives in the header module,
which is not under `src/`. Listed are the variants that `src/detect.rs`
references; every remaining variant of the real enum falls into the match
wildcards, represented here by `other`. -/
inductive DxgiFormat where
  | R8G8B8A8_TYPELESS
  | R8G8B8A8_UNORM
  | R8G8B8A8_UNORM_SRGB
  | R8G8B8A8_SNORM
  | B8G8R8A8_TYPELESS
  | B8G8R8A8_UNORM
  | B8G8R8A8_UNORM_SRGB
  | B8G8R8X8_TYPELESS
  | B8G8R8X8_UNORM
  | B8G8R8X8_UNORM_SRGB
  | B5G6R5_UNORM
  | B5G5R5A1_UNORM
  | B4G4R4A4_UNORM
  | A4B4G4R4_UNORM
  | R8_TYPELESS
  | R8_UNORM
  | R8_SNORM
  | R8G8_UNORM
  | R8G8_SNORM
  | A8_UNORM
  | R16_TYPELESS
  | R16_UNORM
  | R16_SNORM
  | R16_FLOAT
  | R16G16_TYPELESS
  | R16G16_UNORM
  | R16G16_SNORM
  | R16G16_FLOAT
  | R16G16B16A16_TYPELESS
  | R16G16B16A16_UNORM
  | R16G16B16A16_SNORM
  | R16G16B16A16_FLOAT
  | R10G10B10A2_TYPELESS
  | R10G10B10A2_UNORM
  | R11G11B10_FLOAT
  | R9G9B9E5_SHAREDEXP
  | R32_TYPELESS
  | R32_FLOAT
  | R32G32_TYPELESS
  | R32G32_FLOAT
  | R32G32B32_TYPELESS
  | R32G32B32_FLOAT
  | R32G32B32A32_TYPELESS
  | R32G32B32A32_FLOAT
  | R10G10B10_XR_BIAS_A2_UNORM
  | AYUV
  | Y410
  | Y416
  | R8G8_B8G8_UNORM
  | G8R8_G8B8_UNORM
  | YUY2
  | Y210
  | Y216
  | R1_UNORM
  | BC1_TYPELESS
  | BC1_UNORM
  | BC1_UNORM_SRGB
  | BC2_TYPELESS
  | BC2_UNORM
  | BC2_UNORM_SRGB
  | BC3_TYPELESS
  | BC3_UNORM
  | BC3_UNORM_SRGB
  | BC4_TYPELESS
  | BC4_UNORM
  | BC4_SNORM
  | BC5_TYPELESS
  | BC5_UNORM
  | BC5_SNORM
  | BC6H_TYPELESS
  | BC6H_UF16
  | BC6H_SF16
  | BC7_TYPELESS
  | BC7_UNORM
  | BC7_UNORM_SRGB
  | other
deriving DecidableEq

/-- `four_cc_to_dxgi` from `src/detect.rs`; the Rust `match` on `FourCC`
constants is an ordered equality chain. -/
def four_cc_to_dxgi (c : FourCC) : Option DxgiFormat :=
  if c = .DXT1 then some .BC1_UNORM
  else if c = .DXT3 then some .BC2_UNORM
  else if c = .DXT5 then some .BC3_UNORM
  else if c = .ATI1 then some .BC4_UNORM
  else if c = .BC4U then some .BC4_UNORM
  else if c = .BC4S then some .BC4_SNORM
  else if c = .ATI2 then some .BC5_UNORM
  else if c = .BC5U then some .BC5_UNORM
  else if c = .BC5S then some .BC5_SNORM
  else if c = .RGBG then some .R8G8_B8G8_UNORM
  else if c = .GRGB then some .G8R8_G8B8_UNORM
  else if c = .YUY2 then some .YUY2
  else if c = ⟨36⟩ then some .R16G16B16A16_UNORM
  else if c = ⟨110⟩ then some .R16G16B16A16_SNORM
  else if c = ⟨111⟩ then some .R16_FLOAT
  else if c = ⟨112⟩ then some .R16G16_FLOAT
  else if c = ⟨113⟩ then some .R16G16B16A16_FLOAT
  else if c = ⟨114⟩ then some .R32_FLOAT
  else if c = ⟨115⟩ then some .R32G32_FLOAT
  else if c = ⟨116⟩ then some .R32G32B32A32_FLOAT
  else none

/-- `dxgi_to_four_cc` from `src/detect.rs`. -/
def dxgi_to_four_cc : DxgiFormat → Option FourCC
  | .BC1_UNORM => some .DXT1
  | .BC2_UNORM => some .DXT3
  | .BC3_UNORM => some .DXT5
  | .BC4_UNORM => some .BC4U
  | .BC4_SNORM => some .BC4S
  | .BC5_UNORM => some .BC5U
  | .BC5_SNORM => some .BC5S
  | .R8G8_B8G8_UNORM => some .RGBG
  | .G8R8_G8B8_UNORM => some .GRGB
  | .YUY2 => some .YUY2
  | .R16G16B16A16_UNORM => some ⟨36⟩
  | .R16G16B16A16_SNORM => some ⟨110⟩
  | .R16_FLOAT => some ⟨111⟩
  | .R16G16_FLOAT => some ⟨112⟩
  | .R16G16B16A16_FLOAT => some ⟨113⟩
  | .R32_FLOAT => some ⟨114⟩
  | .R32G32_FLOAT => some ⟨115⟩
  | .R32G32B32A32_FLOAT => some ⟨116⟩
  | _ => none

/-! ## Theorems -/


theorem log2go_spec (fuel : ℕ) : ∀ n, n < 2 ^ fuel → 1 ≤ n →
    2 ^ log2go fuel n ≤ n ∧ n < 2 ^ (log2go fuel n + 1) := by
  induction fuel with
  | zero => intro n h h1; simp at h; omega
  | succ f ih =>
    intro n h h1
    by_cases h2 : 2 ≤ n
    · have hp : n < 2 * 2 ^ f := by rw [pow_succ] at h; omega
      have hd : n / 2 < 2 ^ f := by omega
      obtain ⟨l, u⟩ := ih (n / 2) hd (by omega)
      have e1 : log2go (f + 1) n = log2go f (n / 2) + 1 := by
        simp [log2go, h2]
      rw [e1, pow_succ, pow_succ]
      omega
    · have e1 : log2go (f + 1) n = 0 := by simp [log2go]; omega
      rw [e1]
      simp
      omega

theorem ilog2_spec (n : ℕ) (h : n < 2 ^ 300) (h1 : 1 ≤ n) :
    2 ^ ilog2 n ≤ n ∧ n < 2 ^ (ilog2 n + 1) :=
  log2go_spec 300 n h h1

theorem ilog2_zero : ilog2 0 = 0 := by simp [ilog2, log2go]

theorem ilog2_lt_of_lt (n k : ℕ) (hk : 1 ≤ k) (hk3 : k ≤ 300) (h : n < 2 ^ k) :
    ilog2 n < k := by
  rcases Nat.eq_zero_or_pos n with h0 | h0
  · rw [h0, ilog2_zero]; omega
  · have hs := ilog2_spec n (lt_of_lt_of_le h (Nat.pow_le_pow_right (by norm_num) hk3)) h0
    by_contra hc
    exact absurd (lt_of_le_of_lt (le_trans (Nat.pow_le_pow_right (by norm_num) (by omega)) hs.1) h)
      (lt_irrefl _)

theorem roundHTE_mem (n : ℤ) (t : ℕ) (ht : 1 ≤ t) :
    roundHTE n t = n / 2 ^ t ∨ roundHTE n t = n / 2 ^ t + 1 := by
  unfold roundHTE
  rw [if_neg (by omega)]
  split
  · right; rfl
  · split
    · left; rfl
    · split
      · left; rfl
      · right; rfl

theorem roundHTE_nonneg (n : ℤ) (t : ℕ) (ht : 1 ≤ t) (hn : 0 ≤ n) : 0 ≤ roundHTE n t := by
  rcases roundHTE_mem n t ht with h | h <;> rw [h] <;>
    have := Int.ediv_nonneg hn (by positivity : (0:ℤ) ≤ 2 ^ t) <;> omega

theorem roundHTE_zero (t : ℕ) : roundHTE 0 t = 0 := by
  unfold roundHTE
  split
  · rfl
  · rw [Int.zero_emod, Int.zero_ediv, if_neg (not_lt_of_ge (by positivity : (0:ℤ) ≤ 2 ^ (t-1))),
      if_pos (by positivity : (0:ℤ) < 2 ^ (t-1))]

theorem roundHTE_nonpos (n : ℤ) (t : ℕ) (ht : 1 ≤ t) (hn : n ≤ 0) : roundHTE n t ≤ 0 := by
  rcases eq_or_lt_of_le hn with h0 | h0
  · rw [h0, roundHTE_zero]
  · have hq : n / 2 ^ t < 0 := Int.ediv_neg' h0 (by positivity)
    rcases roundHTE_mem n t ht with h | h <;> rw [h] <;> omega

/-- Exactness: a small value with in-range exponent rounds to itself. -/
theorem roundAt_small (n e : ℤ) (hn : n ≠ 0) (hsmall : n.natAbs < 2 ^ 24)
    (he : -149 ≤ e) (hE : (ilog2 n.natAbs : ℤ) + e < 128) :
    roundAt n e = .fin n e := by
  have hL : ilog2 n.natAbs < 24 := ilog2_lt_of_lt _ 24 (by norm_num) (by norm_num) hsmall
  rw [roundAt, if_neg hn, roundAtCore, if_pos (by omega), if_neg (by omega)]

theorem roundAt_nonpos (n e : ℤ) (hn : n ≤ 0) :
    roundAt n e = .neginf ∨
      ∃ m e2, roundAt n e = .fin m e2 ∧ m ≤ 0 ∧ (-149 ≤ e → -149 ≤ e2) := by
  rcases eq_or_lt_of_le hn with h0 | h0
  · right
    exact ⟨0, 0, by rw [roundAt, if_pos h0], le_refl 0, fun _ => by norm_num⟩
  · rw [roundAt, if_neg (by omega), roundAtCore]
    split
    · split
      · left
        simp [signedInf, if_neg (by omega : ¬ (0:ℤ) < n)]
      · right
        exact ⟨n, e, rfl, by omega, fun h => h⟩
    · next ht =>
      have ht1 : 1 ≤ ((max ((ilog2 n.natAbs : ℤ) + e) (-126)) - 23 - e).toNat := by omega
      have hm : roundHTE n ((max ((ilog2 n.natAbs : ℤ) + e) (-126)) - 23 - e).toNat ≤ 0 :=
        roundHTE_nonpos _ _ ht1 hn
      split
      · split
        · left
          simp [signedInf, if_neg (by omega : ¬ (0:ℤ) < n)]
        · right
          exact ⟨_, _, rfl, hm, fun _ => by omega⟩
      · right
        exact ⟨_, _, rfl, hm, fun _ => by omega⟩

/-- If `0 < n` and the exact value `n·2^e` is at most 3/4, then rounding it to
binary32 and truncating to an unsigned integer gives 0 (the rounded value is
still below 1). -/
theorem roundAt_pos_zero (n e : ℤ) (hn : 0 < n) (he : -149 ≤ e)
    (hb : 4 * n ≤ 3 * 2 ^ (-e).toNat) :
    (roundAt n e).toU8 = 0 ∧ (roundAt n e).toU16 = 0 := by
  have he1 : e ≤ -1 := by
    by_contra hc
    push_neg at hc
    have h0 : (-e).toNat = 0 := by omega
    rw [h0, pow_zero, mul_one] at hb
    omega
  have hkge : 1 ≤ (-e).toNat := by omega
  have hP : (0:ℤ) < 2 ^ (-e).toNat := by positivity
  have hnk : n.natAbs < 2 ^ (-e).toNat := by
    have hcast : ((2 ^ (-e).toNat : ℕ) : ℤ) = 2 ^ (-e).toNat := by push_cast; ring
    omega
  have hL : ilog2 n.natAbs < (-e).toNat :=
    ilog2_lt_of_lt _ _ hkge (by omega) hnk
  have hLz : (ilog2 n.natAbs : ℤ) < -e := by omega
  have hE : (ilog2 n.natAbs : ℤ) + e ≤ -1 := by omega
  have heff : max ((ilog2 n.natAbs : ℤ) + e) (-126) ≤ -1 := by omega
  have heff2 : -126 ≤ max ((ilog2 n.natAbs : ℤ) + e) (-126) := le_max_right _ _
  rw [roundAt, if_neg (by omega), roundAtCore]
  split
  · rw [if_neg (by omega)]
    have hdiv : n.toNat / 2 ^ (-e).toNat = 0 := Nat.div_eq_of_lt (by omega)
    constructor <;>
    · simp only [F32.toU8, F32.toU16]
      rw [if_neg (not_le_of_gt hn), if_neg (by omega : ¬ (0:ℤ) ≤ e), hdiv]
      simp
  · next hte =>
    rw [if_neg (by omega)]
    push_neg at hte
    set eff : ℤ := max ((ilog2 n.natAbs : ℤ) + e) (-126) with heffdef
    set t : ℕ := (eff - 23 - e).toNat with htdef
    have ht1 : 1 ≤ t := by omega
    set j : ℕ := (21 - eff).toNat with hjdef
    have hj22 : 22 ≤ j := by omega
    have hksplit : (-e).toNat = t + j + 2 := by omega
    have hQ : (0:ℤ) < 2 ^ t := by positivity
    have hJ : (0:ℤ) < 2 ^ j := by positivity
    have hpow : (2:ℤ) ^ (-e).toNat = 2 ^ t * (2 ^ j * 4) := by
      rw [hksplit, pow_add, pow_add]
      ring
    have hnb : n ≤ 3 * 2 ^ j * 2 ^ t := by
      rw [hpow] at hb
      nlinarith
    have hqb : n / 2 ^ t ≤ 3 * 2 ^ j := by
      calc n / 2 ^ t ≤ 3 * 2 ^ j * 2 ^ t / 2 ^ t :=
            Int.ediv_le_ediv hQ hnb
        _ = 3 * 2 ^ j := Int.mul_ediv_cancel _ (by omega)
    have hmb : roundHTE n t ≤ 3 * 2 ^ j + 1 := by
      rcases roundHTE_mem n t ht1 with h | h <;> omega
    have hm0 : 0 ≤ roundHTE n t := roundHTE_nonneg n t ht1 (le_of_lt hn)
    have hj2 : (2:ℤ) ≤ 2 ^ j := by
      calc (2:ℤ) = 2 ^ 1 := (pow_one 2).symm
        _ ≤ 2 ^ j := pow_le_pow_right₀ (by norm_num) (by omega)
    have htrg : (-(eff - 23)).toNat = j + 2 := by omega
    have hcast2 : ((2 ^ (j + 2) : ℕ) : ℤ) = 2 ^ j * 4 := by
      push_cast
      rw [pow_add]
      ring
    have hdiv : (roundHTE n t).toNat / 2 ^ (-(eff - 23)).toNat = 0 := by
      apply Nat.div_eq_of_lt
      rw [htrg]
      omega
    constructor <;>
    · simp only [F32.toU8, F32.toU16]
      by_cases hmz : roundHTE n t ≤ 0
      · rw [if_pos hmz]
      · rw [if_neg hmz, if_neg (by omega : ¬ (0:ℤ) ≤ eff - 23), hdiv]
        simp

theorem roundAt_nonpos_zero (n e : ℤ) (hn : n ≤ 0) :
    (roundAt n e).toU8 = 0 ∧ (roundAt n e).toU16 = 0 := by
  rcases roundAt_nonpos n e hn with h | ⟨m, e2, h, hm, _⟩ <;> rw [h]
  · exact ⟨rfl, rfl⟩
  · constructor <;> simp [F32.toU8, F32.toU16, if_pos hm]

/-- Adding `0.5` to a nonpositive binary32 value and truncating gives 0. -/
theorem addHalf_zero (m e : ℤ) (hm : m ≤ 0) (he : -149 ≤ e) :
    ((F32.fin m e).add f32half).toU8 = 0 ∧ ((F32.fin m e).add f32half).toU16 = 0 := by
  rw [f32half]
  simp only [F32.add]
  split
  · next hee =>
    rw [one_mul]
    rcases le_or_lt (m + 2 ^ (-1 - e).toNat) 0 with hz | hz
    · exact roundAt_nonpos_zero _ _ hz
    · apply roundAt_pos_zero _ _ hz he
      have hsplit : (-e).toNat = (-1 - e).toNat + 1 := by omega
      have hpow : (2:ℤ) ^ (-e).toNat = 2 * 2 ^ (-1 - e).toNat := by
        rw [hsplit, pow_succ]
        ring
      have hA : (0:ℤ) < 2 ^ (-1 - e).toNat := by positivity
      rw [hpow]
      omega
  · next hee =>
    rcases le_or_lt (m * 2 ^ (e - -1).toNat + 1) 0 with hz | hz
    · exact roundAt_nonpos_zero _ _ hz
    · apply roundAt_pos_zero _ _ hz (by omega)
      have hA : m * 2 ^ (e - -1).toNat ≤ 0 :=
        mul_nonpos_of_nonpos_of_nonneg hm (by positivity)
      norm_num at hA ⊢
      omega

namespace fp

/-- `fp::n8`: `(x * 255.0 + 0.5) as u8`. -/
def n8 (x : F32) : ℕ := ((x.mul (.fin 255 0)).add f32half).toU8

/-- `fp::n16`: `(x * 65535.0 + 0.5) as u16`. -/
def n16 (x : F32) : ℕ := ((x.mul (.fin 65535 0)).add f32half).toU16

end fp

theorem mul_neg_addHalf_zero (m e c : ℤ) (hm : 0 ≤ m) (hc : 0 < c) (he : -149 ≤ e) :
    (((F32.fin (-m) e).mul (.fin c 0)).add f32half).toU8 = 0 ∧
      (((F32.fin (-m) e).mul (.fin c 0)).add f32half).toU16 = 0 := by
  simp only [F32.mul]
  have hnp : -m * c ≤ 0 := mul_nonpos_of_nonpos_of_nonneg (by omega) (le_of_lt hc)
  rcases roundAt_nonpos (-m * c) (e + 0) hnp with h | ⟨m2, e2, h, hm2, he2⟩ <;> rw [h]
  · exact ⟨rfl, rfl⟩
  · exact addHalf_zero m2 e2 hm2 (he2 (by omega))

/-- A nonnegative finite value, negated, maps to 0 under both float-to-Unorm
kernels. -/
theorem fp_neg_fin_zero (m e : ℤ) (hm : 0 ≤ m) (he : -149 ≤ e) :
    fp.n8 (F32.neg (.fin m e)) = 0 ∧ fp.n16 (F32.neg (.fin m e)) = 0 := by
  have h8 := (mul_neg_addHalf_zero m e 255 hm (by norm_num) he).1
  have h16 := (mul_neg_addHalf_zero m e 65535 hm (by norm_num) he).2
  exact ⟨h8, h16⟩

theorem ofNat_fin (n : ℕ) (h : n < 2 ^ 24) : ofNatF32 n = .fin n 0 := by
  rcases Nat.eq_zero_or_pos n with h0 | h0
  · subst h0
    rw [ofNatF32, roundAt, if_pos]
    · norm_num
    · norm_num
  · have hlog := ilog2_lt_of_lt n 24 (by norm_num) (by norm_num) h
    have h2 : (n : ℤ).natAbs = n := Int.natAbs_ofNat n
    exact roundAt_small n 0 (by omega) (by rw [h2]; exact h) (by norm_num)
      (by rw [h2]; omega)

theorem add_fin_zero (a b : ℤ) (hb : 0 < b) (ha : 0 ≤ a) (hab : a + b < 2 ^ 24) :
    (F32.fin a 0).add (.fin b 0) = .fin (a + b) 0 := by
  simp only [F32.add, if_pos (le_refl (0:ℤ))]
  rw [show ((0:ℤ) - 0).toNat = 0 by norm_num, pow_zero, mul_one]
  have h2 : ((2 ^ 24 : ℕ) : ℤ) = 2 ^ 24 := by norm_num
  have hlt : (a + b).natAbs < 2 ^ 24 := by omega
  have hlog := ilog2_lt_of_lt (a + b).natAbs 24 (by norm_num) (by norm_num) hlt
  exact roundAt_small (a + b) 0 (by omega) hlt (by norm_num) (by omega)

theorem mul_fin_pow (k e : ℤ) (hk : 0 < k) (hsmall : k < 2 ^ 24) (he : -149 ≤ e)
    (hE : e ≤ 100) : (F32.fin k 0).mul (.fin 1 e) = .fin k e := by
  simp only [F32.mul]
  rw [mul_one, zero_add]
  have h2 : ((2 ^ 24 : ℕ) : ℤ) = 2 ^ 24 := by norm_num
  have hlt : k.natAbs < 2 ^ 24 := by omega
  have hlog := ilog2_lt_of_lt k.natAbs 24 (by norm_num) (by norm_num) hlt
  exact roundAt_small k e (by omega) hlt he (by omega)

theorem mul_fin_const (a e c : ℤ) (ha : 0 < a) (hc : 0 < c) (hsmall : a * c < 2 ^ 24)
    (he : -149 ≤ e) (hE : e ≤ 100) : (F32.fin a e).mul (.fin c 0) = .fin (a * c) e := by
  simp only [F32.mul]
  rw [add_zero]
  have hac : 0 < a * c := mul_pos ha hc
  have h2 : ((2 ^ 24 : ℕ) : ℤ) = 2 ^ 24 := by norm_num
  have hlt : (a * c).natAbs < 2 ^ 24 := by omega
  have hlog := ilog2_lt_of_lt (a * c).natAbs 24 (by norm_num) (by norm_num) hlt
  exact roundAt_small (a * c) e (by omega) hlt he (by omega)

namespace fp16

/-- `fp16::n8`: the fused `f16` to Unorm8 kernel from the source. -/
def n8 (x : ℕ) : ℕ :=
  let exp := x >>> 10 &&& 31
  let mant := x &&& 1023
  let val : ℕ :=
    if exp ≠ 31 then
      (((((ofNatF32 mant).add (.fin 1024 0)).mul (two_powi ((exp : ℤ) - 25))).mul
          (.fin 255 0)).add f32half).toU8
    else if mant = 0 then 255
    else 0
  if x &&& 32768 ≠ 0 then 0 else val

/-- `fp16::n16`: the fused `f16` to Unorm16 kernel from the source (the denorm
constant `F` is `65535.0 / 16777216.0 = 65535·2^−24`, exact in `f32`). -/
def n16 (x : ℕ) : ℕ :=
  let exp := x >>> 10 &&& 31
  let mant := x &&& 1023
  let val : ℕ :=
    if exp = 0 then (((ofNatF32 mant).mul (.fin 65535 (-24))).add f32half).toU16
    else if exp ≠ 31 then
      (((((ofNatF32 mant).add (.fin 1024 0)).mul (two_powi ((exp : ℤ) - 25))).mul
          (.fin 65535 0)).add f32half).toU16
    else if mant = 0 then 65535
    else 0
  if x &&& 32768 ≠ 0 then 0 else val

/-- `fp16::f32`: the plain `f16` to `f32` decoder from the source. -/
def f32 (x : ℕ) : F32 :=
  let exp := x >>> 10 &&& 31
  let mant := x &&& 1023
  let val : F32 :=
    if exp = 0 then (ofNatF32 mant).mul (two_powi (-24))
    else if exp ≠ 31 then ((ofNatF32 mant).add (.fin 1024 0)).mul (two_powi ((exp : ℤ) - 25))
    else if mant = 0 then .inf
    else .nan
  if x &&& 32768 ≠ 0 then val.neg else val

end fp16

namespace bc6h_uf16

/-- `bc6h_uf16::n8` (no sign/Inf/NaN branches; `debug_assert!`s only). -/
def n8 (x : ℕ) : ℕ :=
  let exp := x >>> 10 &&& 31
  let mant := x &&& 1023
  (((((ofNatF32 mant).add (.fin 1024 0)).mul (two_powi ((exp : ℤ) - 25))).mul
      (.fin 255 0)).add f32half).toU8

/-- `bc6h_uf16::n16`. -/
def n16 (x : ℕ) : ℕ :=
  let exp := x >>> 10 &&& 31
  let mant := x &&& 1023
  if exp = 0 then (((ofNatF32 mant).mul (.fin 65535 (-24))).add f32half).toU16
  else
    (((((ofNatF32 mant).add (.fin 1024 0)).mul (two_powi ((exp : ℤ) - 25))).mul
        (.fin 65535 0)).add f32half).toU16

/-- `bc6h_uf16::f32`. -/
def f32 (x : ℕ) : F32 :=
  let exp := x >>> 10 &&& 31
  let mant := x &&& 1023
  if exp = 0 then (ofNatF32 mant).mul (two_powi (-24))
  else ((ofNatF32 mant).add (.fin 1024 0)).mul (two_powi ((exp : ℤ) - 25))

end bc6h_uf16

theorem normVal_eq (exp mant : ℕ) (hm : mant ≤ 1023) (hexp : exp ≤ 30) :
    ((ofNatF32 mant).add (.fin 1024 0)).mul (two_powi ((exp : ℤ) - 25)) =
      .fin ((mant : ℤ) + 1024) ((exp : ℤ) - 25) := by
  rw [ofNat_fin mant (by omega), add_fin_zero _ _ (by norm_num) (by omega) (by omega),
    two_powi, mul_fin_pow _ _ (by omega) (by omega) (by omega) (by omega)]

theorem denormVal_eq (mant : ℕ) (hm : 1 ≤ mant) (hm2 : mant ≤ 1023) :
    (ofNatF32 mant).mul (two_powi (-24)) = .fin (mant : ℤ) (-24) := by
  rw [ofNat_fin mant (by omega), two_powi,
    mul_fin_pow _ _ (by omega) (by omega) (by norm_num) (by norm_num)]

theorem normVal0_eq (mant : ℕ) (hm : mant ≤ 1023) :
    ((ofNatF32 mant).add (.fin 1024 0)).mul (two_powi (-25)) =
      .fin ((mant : ℤ) + 1024) (-25) := by
  rw [ofNat_fin mant (by omega), add_fin_zero _ _ (by norm_num) (by omega) (by omega),
    two_powi, mul_fin_pow _ _ (by omega) (by omega) (by norm_num) (by norm_num)]

theorem c4_n8_denorm_fused (mant : ℕ) (hm : mant ≤ 1023) :
    (((((ofNatF32 mant).add (.fin 1024 0)).mul (two_powi (-25))).mul
        (.fin 255 0)).add f32half).toU8 = 0 := by
  rw [normVal0_eq mant hm,
    mul_fin_const _ _ _ (by omega) (by norm_num) (by omega) (by norm_num) (by norm_num)]
  simp only [F32.add, f32half]
  rw [if_pos (by norm_num : (-25:ℤ) ≤ -1), one_mul,
    show ((-1:ℤ) - -25).toNat = 24 by decide]
  exact (roundAt_pos_zero _ _ (by positivity) (by norm_num)
    (by rw [show (-(-25:ℤ)).toNat = 25 by decide]; omega)).1

theorem c4_n8_denorm_composed (mant : ℕ) (hm : mant ≤ 1023) :
    ((((ofNatF32 mant).mul (two_powi (-24))).mul (.fin 255 0)).add f32half).toU8 = 0 := by
  rcases Nat.eq_zero_or_pos mant with h0 | h0
  · subst h0
    decide
  · rw [denormVal_eq mant h0 hm,
      mul_fin_const _ _ _ (by omega) (by norm_num) (by omega) (by norm_num) (by norm_num)]
    simp only [F32.add, f32half]
    rw [if_pos (by norm_num : (-24:ℤ) ≤ -1), one_mul,
      show ((-1:ℤ) - -24).toNat = 23 by decide]
    exact (roundAt_pos_zero _ _ (by positivity) (by norm_num)
      (by rw [show (-(-24:ℤ)).toNat = 24 by decide]; omega)).1

theorem c4_n8_sign_clear (x : ℕ) (hs : x &&& 32768 = 0) :
    fp16.n8 x = fp.n8 (fp16.f32 x) := by
  simp only [fp16.n8, fp16.f32, fp.n8]
  rw [if_neg (by omega : ¬ x &&& 32768 ≠ 0), if_neg (by omega : ¬ x &&& 32768 ≠ 0)]
  have hm1023 : x &&& 1023 ≤ 1023 := Nat.and_le_right
  by_cases h31 : x >>> 10 &&& 31 = 31
  · rw [if_neg (by omega : ¬ x >>> 10 &&& 31 ≠ 31),
      if_neg (by omega : ¬ x >>> 10 &&& 31 = 0),
      if_neg (by omega : ¬ x >>> 10 &&& 31 ≠ 31)]
    by_cases hm0 : x &&& 1023 = 0
    · rw [if_pos hm0, if_pos hm0]
      rfl
    · rw [if_neg hm0, if_neg hm0]
      rfl
  · rw [if_pos (by omega : x >>> 10 &&& 31 ≠ 31)]
    by_cases h0 : x >>> 10 &&& 31 = 0
    · rw [if_pos h0, h0]
      rw [show (((0:ℕ):ℤ) - 25) = -25 by norm_num]
      rw [c4_n8_denorm_fused _ hm1023, c4_n8_denorm_composed _ hm1023]
    · rw [if_neg h0, if_pos (by omega : x >>> 10 &&& 31 ≠ 31)]

theorem c4_n16_sign_clear (x : ℕ) (hs : x &&& 32768 = 0) :
    fp16.n16 x = fp.n16 (fp16.f32 x) := by
  simp only [fp16.n16, fp16.f32, fp.n16]
  rw [if_neg (by omega : ¬ x &&& 32768 ≠ 0), if_neg (by omega : ¬ x &&& 32768 ≠ 0)]
  have hm1023 : x &&& 1023 ≤ 1023 := Nat.and_le_right
  by_cases h0 : x >>> 10 &&& 31 = 0
  · rw [if_pos h0, if_pos h0]
    rcases Nat.eq_zero_or_pos (x &&& 1023) with hm0 | hm0
    · rw [hm0]
      decide
    · rw [denormVal_eq _ hm0 hm1023, ofNat_fin _ (by omega)]
      simp only [F32.mul]
      norm_num
  · rw [if_neg h0, if_neg h0]
    by_cases h31 : x >>> 10 &&& 31 = 31
    · rw [if_neg (by omega : ¬ x >>> 10 &&& 31 ≠ 31),
        if_neg (by omega : ¬ x >>> 10 &&& 31 ≠ 31)]
      by_cases hm0 : x &&& 1023 = 0
      · rw [if_pos hm0, if_pos hm0]
        rfl
      · rw [if_neg hm0, if_neg hm0]
        rfl
    · rw [if_pos (by omega : x >>> 10 &&& 31 ≠ 31),
        if_pos (by omega : x >>> 10 &&& 31 ≠ 31)]

theorem c4_sign_set (x : ℕ) (hs : x &&& 32768 ≠ 0) :
    fp16.n8 x = fp.n8 (fp16.f32 x) ∧ fp16.n16 x = fp.n16 (fp16.f32 x) := by
  simp only [fp16.n8, fp16.n16, fp16.f32, fp.n8, fp.n16]
  rw [if_pos hs, if_pos hs, if_pos hs]
  have hm1023 : x &&& 1023 ≤ 1023 := Nat.and_le_right
  have hexp31 : x >>> 10 &&& 31 ≤ 31 := Nat.and_le_right
  by_cases h0 : x >>> 10 &&& 31 = 0
  · rw [if_pos h0]
    rcases Nat.eq_zero_or_pos (x &&& 1023) with hm0 | hm0
    · rw [hm0]
      exact ⟨by decide, by decide⟩
    · rw [denormVal_eq _ hm0 hm1023]
      have h := fp_neg_fin_zero ((x &&& 1023 : ℕ) : ℤ) (-24) (by positivity) (by norm_num)
      exact ⟨h.1.symm, h.2.symm⟩
  · rw [if_neg h0]
    by_cases h31 : x >>> 10 &&& 31 = 31
    · rw [if_neg (by omega : ¬ x >>> 10 &&& 31 ≠ 31)]
      by_cases hm0 : x &&& 1023 = 0
      · rw [if_pos hm0]
        exact ⟨rfl, rfl⟩
      · rw [if_neg hm0]
        exact ⟨rfl, rfl⟩
    · rw [if_pos (by omega : x >>> 10 &&& 31 ≠ 31)]
      rw [normVal_eq (x >>> 10 &&& 31) (x &&& 1023) hm1023 (by omega)]
      have h := fp_neg_fin_zero ((x &&& 1023 : ℕ) + 1024 : ℤ)
        (((x >>> 10 &&& 31 : ℕ) : ℤ) - 25) (by positivity) (by omega)
      exact ⟨h.1.symm, h.2.symm⟩

theorem c4_bc6h (x : ℕ) (hs : x &&& 32768 = 0) (h31 : x >>> 10 &&& 31 ≠ 31) :
    bc6h_uf16.n8 x = fp16.n8 x ∧ bc6h_uf16.n16 x = fp16.n16 x ∧
      bc6h_uf16.f32 x = fp16.f32 x := by
  simp only [bc6h_uf16.n8, bc6h_uf16.n16, bc6h_uf16.f32, fp16.n8, fp16.n16, fp16.f32]
  rw [if_neg (by omega : ¬ x &&& 32768 ≠ 0), if_neg (by omega : ¬ x &&& 32768 ≠ 0),
    if_neg (by omega : ¬ x &&& 32768 ≠ 0)]
  refine ⟨?_, ?_, ?_⟩
  · rw [if_pos h31]
  · by_cases h0 : x >>> 10 &&& 31 = 0
    · rw [if_pos h0, if_pos h0]
    · rw [if_neg h0, if_neg h0, if_pos h31]
  · by_cases h0 : x >>> 10 &&& 31 = 0
    · rw [if_pos h0, if_pos h0]
    · rw [if_neg h0, if_neg h0, if_pos h31]

theorem c4_main (x : ℕ) :
    (fp16.n8 x = fp.n8 (fp16.f32 x) ∧ fp16.n16 x = fp.n16 (fp16.f32 x)) ∧
      (x &&& 32768 = 0 → x >>> 10 &&& 31 ≠ 31 →
        bc6h_uf16.n8 x = fp16.n8 x ∧ bc6h_uf16.n16 x = fp16.n16 x ∧
          bc6h_uf16.f32 x = fp16.f32 x) := by
  constructor
  · by_cases hs : x &&& 32768 = 0
    · exact ⟨c4_n8_sign_clear x hs, c4_n16_sign_clear x hs⟩
    · exact c4_sign_set x hs
  · intro hs h31
    exact c4_bc6h x hs h31




/-- Helper for `n16::n8`: since `65535 = 255·257`, rounding `x·255/65535` is
rounding `x/257`, so splitting on `x % 257 ≥ 129` makes each division pair
linear enough for `omega`. -/
theorem n16m_n8_exact_aux (x : ℕ) (hx : x ≤ 65535) :
    n16m.n8 x = roundDiv (x * 255) 65535 := by
  simp only [n16m.n8, roundDiv]
  have hm : (x * 255 + 32895) % 2 ^ 32 = x * 255 + 32895 := by omega
  rw [hm]
  by_cases hs : 129 ≤ x % 257
  · have h1 : (x * 255 + 32895) / 2 ^ 16 = x / 257 + 1 := by omega
    have h2 : (2 * (x * 255) + 65535) / (2 * 65535) = x / 257 + 1 := by omega
    rw [h1, h2]
    omega
  · have h1 : (x * 255 + 32895) / 2 ^ 16 = x / 257 := by omega
    have h2 : (2 * (x * 255) + 65535) / (2 * 65535) = x / 257 := by omega
    rw [h1, h2]
    omega

/-- C1: for every encoded width `n ∈ {1,2,4,5,6,10}` and every input
`x ∈ [0, 2^n − 1]`, the `n`-to-`u8` kernel returns `round(x·255/(2^n−1))` and
the `n`-to-`u16` kernel returns `round(x·65535/(2^n−1))`; and
`n16::n8 x = round(x·255/65535)` for every `u16` value `x`. -/
theorem unorm_kernels_exact :
    (∀ x, x ≤ 1 → n1.n8 x = roundDiv (x * 255) 1 ∧ n1.n16 x = roundDiv (x * 65535) 1) ∧
    (∀ x, x ≤ 3 → n2.n8 x = roundDiv (x * 255) 3 ∧ n2.n16 x = roundDiv (x * 65535) 3) ∧
    (∀ x, x ≤ 15 → n4.n8 x = roundDiv (x * 255) 15 ∧ n4.n16 x = roundDiv (x * 65535) 15) ∧
    (∀ x, x ≤ 31 → n5.n8 x = roundDiv (x * 255) 31 ∧ n5.n16 x = roundDiv (x * 65535) 31) ∧
    (∀ x, x ≤ 63 → n6.n8 x = roundDiv (x * 255) 63 ∧ n6.n16 x = roundDiv (x * 65535) 63) ∧
    (∀ x, x ≤ 1023 →
      n10.n8 x = roundDiv (x * 255) 1023 ∧ n10.n16 x = roundDiv (x * 65535) 1023) ∧
    (∀ x, x ≤ 65535 → n16m.n8 x = roundDiv (x * 255) 65535) := by
  refine ⟨?_, ?_, ?_, ?_, ?_, ?_, ?_⟩
  · intro x hx
    interval_cases x <;> exact ⟨by decide, by decide⟩
  · intro x hx
    constructor <;> simp only [n2.n8, n2.n16, roundDiv] <;> omega
  · intro x hx
    constructor <;> simp only [n4.n8, n4.n16, roundDiv] <;> omega
  · decide
  · decide
  · decide
  · exact n16m_n8_exact_aux

/-- Witness for C1: the kernels evaluated at concrete inputs through the
theorem. -/
theorem unorm_kernels_exact_witness :
    31 ≤ 31 ∧ n5.n8 31 = roundDiv (31 * 255) 31 ∧
      40000 ≤ 65535 ∧ n16m.n8 40000 = roundDiv (40000 * 255) 65535 :=
  ⟨by decide, (unorm_kernels_exact.2.2.2.1 31 (by decide)).1, by decide,
    unorm_kernels_exact.2.2.2.2.2.2 40000 (by decide)⟩

/-- C2 counterexample: the claim asserts that the input with bit pattern 0
maps to 0 under the Snorm-to-Unorm16 kernels, but bit pattern 0 is signed
value 0, which maps to 32768 (as the claim itself also states). -/
theorem snorm_bit_pattern_zero_counterexample :
    (s8.n16 0 = 32768 ∧ s8.n16 0 ≠ 0) ∧ (s16.n16 0 = 32768 ∧ s16.n16 0 ≠ 0) := by
  refine ⟨⟨by decide, by decide⟩, ⟨?_, ?_⟩⟩ <;> decide

/-- C2 (amended: without the false "bit pattern 0 maps to 0" conjunct): the
Snorm normalization kernels map the −max bit pattern (0x81 / 0x8001) to 0, the
−max−1 bit pattern (0x80 / 0x8000) to 0, the +max bit pattern (0x7F / 0x7FFF)
to 65535, and signed 0 to 32768; the normalization step
`saturating_sub(1, wrapping_add(x, 2^(n−1)))` yields the unsigned range
`[0, 2^n − 2]`. -/
theorem snorm_normalization :
    s8.n16 0x81 = 0 ∧ s8.n16 0x80 = 0 ∧ s8.n16 0x7F = 65535 ∧ s8.n16 0 = 32768 ∧
    s16.n16 0x8001 = 0 ∧ s16.n16 0x8000 = 0 ∧ s16.n16 0x7FFF = 65535 ∧
    s16.n16 0 = 32768 ∧
    (∀ x, x ≤ 255 → s8.norm x ≤ 254) ∧ (∀ x, x ≤ 65535 → s16.norm x ≤ 65534) := by
  refine ⟨by decide, by decide, by decide, by decide, by decide, by decide, by decide,
    by decide, ?_, ?_⟩
  · intro x _
    simp only [s8.norm]
    omega
  · intro x _
    simp only [s16.norm]
    omega

/-- Witness for C2: the amended claim applied at concrete inputs. -/
theorem snorm_normalization_witness : 129 ≤ 255 ∧ s8.norm 129 ≤ 254 :=
  ⟨by decide, snorm_normalization.2.2.2.2.2.2.2.2.1 129 (by decide)⟩

/-- C4: for every u16 `x`, the fused FP16 kernels equal the two-step
composition through f32 (`fp16::n8/n16` versus `fp::n8/n16 ∘ fp16::f32`), and
on the valid BC6H_UF16 subset (sign bit clear and exponent < 31) the
`bc6h_uf16` kernels agree with the corresponding `fp16` kernels. -/
theorem fp16_fused_equivalence :
    ∀ x : ℕ, x < 65536 →
      (fp16.n8 x = fp.n8 (fp16.f32 x) ∧ fp16.n16 x = fp.n16 (fp16.f32 x)) ∧
      (x &&& 32768 = 0 → x >>> 10 &&& 31 < 31 →
        bc6h_uf16.n8 x = fp16.n8 x ∧ bc6h_uf16.n16 x = fp16.n16 x ∧
          bc6h_uf16.f32 x = fp16.f32 x) := by
  intro x _
  exact ⟨(c4_main x).1, fun hs h31 => (c4_main x).2 hs (by omega)⟩

/-- Witness for C4: the equivalence at the concrete input 0x3C55 (≈ 1.083),
and the BC6H agreement at the same input. -/
theorem fp16_fused_equivalence_witness :
    0x3C55 < 65536 ∧ fp16.n8 0x3C55 = fp.n8 (fp16.f32 0x3C55) ∧
      (0x3C55 &&& 32768 = 0 ∧ 0x3C55 >>> 10 &&& 31 < 31) ∧
      bc6h_uf16.n8 0x3C55 = fp16.n8 0x3C55 :=
  ⟨by norm_num, ((fp16_fused_equivalence 0x3C55 (by norm_num)).1).1, ⟨by decide, by decide⟩,
    ((fp16_fused_equivalence 0x3C55 (by norm_num)).2 (by decide) (by decide)).1⟩

/-- C5: the FP16-to-Unorm fused kernels map +Inf (0x7C00) to the maximum,
NaN (0x7E00) to 0, and −Inf (0xFC00) — like every input with the sign bit
set — to 0. -/
theorem fp16_special_values :
    fp16.n8 0x7C00 = 255 ∧ fp16.n16 0x7C00 = 65535 ∧
    fp16.n8 0x7E00 = 0 ∧ fp16.n16 0x7E00 = 0 ∧
    fp16.n8 0xFC00 = 0 ∧ fp16.n16 0xFC00 = 0 ∧
    (∀ x : ℕ, x &&& 32768 ≠ 0 → fp16.n8 x = 0 ∧ fp16.n16 x = 0) := by
  refine ⟨by decide, by decide, by decide, by decide, by decide, by decide, ?_⟩
  intro x hs
  simp only [fp16.n8, fp16.n16]
  rw [if_pos hs, if_pos hs]
  exact ⟨rfl, rfl⟩

/-- Witness for C5: the negative-input clause applied at 0x8123. -/
theorem fp16_special_values_witness :
    0x8123 &&& 32768 ≠ 0 ∧ fp16.n8 0x8123 = 0 :=
  ⟨by decide, (fp16_special_values.2.2.2.2.2.2 0x8123 (by decide)).1⟩

/-- C3 counterexample. -/
theorem bc1_mid_counterexample :
    bc1_decode_block [0x00, 0x00, 0xFF, 0xFF, 0xAA, 0xAA, 0xAA, 0xAA] ≠
        List.replicate 16 (127, 127, 127, 255) ∧
      B5G6R5.mid_color_rgb8 (B5G6R5.from_u16 0x0000) (B5G6R5.from_u16 0xFFFF) ≠
        (127, 127, 127) := by
  constructor <;> decide

/-- C3 amended. -/
theorem bc1_mid_block :
    bc1_decode_block [0x00, 0x00, 0xFF, 0xFF, 0xAA, 0xAA, 0xAA, 0xAA] =
        List.replicate 16 (128, 128, 128, 255) ∧
      B5G6R5.mid_color_rgb8 (B5G6R5.from_u16 0x0000) (B5G6R5.from_u16 0xFFFF) =
        (128, 128, 128) := by
  constructor <;> decide

/-- C9. -/
theorem four_cc_dxgi_round_trip :
    ∀ (d : DxgiFormat) (c : FourCC), dxgi_to_four_cc d = some c →
      four_cc_to_dxgi c = some d := by
  intro d c h
  cases d <;> simp only [dxgi_to_four_cc] at h <;>
    first
      | exact Option.noConfusion h
      | (obtain rfl := Option.some.inj h; decide)

/-- C9 witness. -/
theorem four_cc_dxgi_round_trip_witness :
    dxgi_to_four_cc .BC1_UNORM = some .DXT1 ∧
      four_cc_to_dxgi .DXT1 = some .BC1_UNORM :=
  ⟨by decide, four_cc_dxgi_round_trip .BC1_UNORM .DXT1 (by decide)⟩

/-- C7 counterexample. -/
theorem alloc_overflow_counterexample :
    DecodeContext.alloc 2 ⟨⟨.grayscale, .u8⟩, ⟨0, 0⟩, 0⟩ (2 ^ 63) =
        .ok (⟨⟨.grayscale, .u8⟩, ⟨0, 0⟩, 0⟩, 2 ^ 63) ∧
      2 ^ 63 * 2 > (0 : ℕ) := by
  constructor
  · rfl
  · norm_num

/-- C7 amended. -/
theorem reserve_bytes_alloc :
    (∀ ctx : DecodeContext, ∀ b : ℕ,
      ((∃ e, ctx.reserve_bytes b = .error e) ↔ ctx.memory_limit < b) ∧
      (ctx.memory_limit < b → ctx.reserve_bytes b = .error .memoryLimitExceeded) ∧
      (b ≤ ctx.memory_limit →
        ctx.reserve_bytes b = .ok ⟨ctx.color, ctx.size, ctx.memory_limit - b⟩)) ∧
    (∀ (size_of_t : ℕ) (ctx : DecodeContext) (len : ℕ),
      (len * size_of_t % 2 ^ 64 > ctx.memory_limit →
        ctx.alloc size_of_t len = .error .memoryLimitExceeded) ∧
      (len * size_of_t % 2 ^ 64 ≤ ctx.memory_limit →
        ctx.alloc size_of_t len =
          .ok (⟨ctx.color, ctx.size, ctx.memory_limit - len * size_of_t % 2 ^ 64⟩, len))) := by
  constructor
  · intro ctx b
    refine ⟨⟨?_, ?_⟩, ?_, ?_⟩
    · rintro ⟨e, he⟩
      by_contra hc
      rw [DecodeContext.reserve_bytes, if_neg hc] at he
      exact Except.noConfusion he
    · intro h
      exact ⟨.memoryLimitExceeded, by rw [DecodeContext.reserve_bytes, if_pos h]⟩
    · intro h
      rw [DecodeContext.reserve_bytes, if_pos h]
    · intro h
      rw [DecodeContext.reserve_bytes, if_neg (by omega)]
  · intro size_of_t ctx len
    constructor
    · intro h
      rw [DecodeContext.alloc, DecodeContext.reserve_bytes, if_pos (by omega)]
    · intro h
      rw [DecodeContext.alloc, DecodeContext.reserve_bytes, if_neg (by omega)]

/-- C7 witness. -/
theorem reserve_bytes_alloc_witness :
    (DecodeContext.reserve_bytes ⟨⟨.grayscale, .u8⟩, ⟨0, 0⟩, 10⟩ 4 =
        .ok ⟨⟨.grayscale, .u8⟩, ⟨0, 0⟩, 6⟩) ∧
      (DecodeContext.reserve_bytes ⟨⟨.grayscale, .u8⟩, ⟨0, 0⟩, 3⟩ 4 =
        .error .memoryLimitExceeded) :=
  ⟨(reserve_bytes_alloc.1 ⟨⟨.grayscale, .u8⟩, ⟨0, 0⟩, 10⟩ 4).2.2 (by norm_num),
    (reserve_bytes_alloc.1 ⟨⟨.grayscale, .u8⟩, ⟨0, 0⟩, 3⟩ 4).2.1 (by norm_num)⟩

/-- C6 counterexample (saturating product). -/
theorem rargs_saturation_counterexample :
    RArgs.new 0 (2 ^ 63) ⟨0, 0, 0, 4⟩ ⟨⟨.grayscale, .u8⟩, ⟨0, 4⟩, 0⟩ =
        .error (.rectBufferTooSmall (2 ^ 64 - 1)) ∧
      (2 ^ 64 - 1 : ℕ) ≠ 2 ^ 63 * 4 := by
  constructor
  · rfl
  · norm_num

/-- C6 amended. -/
theorem decode_rect_preflight {R : Type} :
    ∀ (inner : R → Except DecodeError Unit × R) (color : ColorFormat) (reader : R)
      (size : Size) (rect : Rect) (output_len row_pitch memory_limit : ℕ),
      (¬ rect.is_within_bounds size →
        DecoderSet.decode_rect inner color reader size rect output_len row_pitch
            memory_limit = (.error .rectOutOfBounds, reader)) ∧
      (rect.is_within_bounds size →
        row_pitch < satMul rect.width color.bytes_per_pixel →
        DecoderSet.decode_rect inner color reader size rect output_len row_pitch
            memory_limit =
          (.error (.rowPitchTooSmall (satMul rect.width color.bytes_per_pixel)), reader)) ∧
      (rect.is_within_bounds size →
        satMul rect.width color.bytes_per_pixel ≤ row_pitch →
        output_len < satMul row_pitch rect.height →
        DecoderSet.decode_rect inner color reader size rect output_len row_pitch
            memory_limit =
          (.error (.rectBufferTooSmall (satMul row_pitch rect.height)), reader)) := by
  intro inner color reader size rect output_len row_pitch memory_limit
  refine ⟨?_, ?_, ?_⟩
  · intro h
    rw [DecoderSet.decode_rect, RArgs.new, if_pos h]
  · intro h1 h2
    rw [DecoderSet.decode_rect, RArgs.new, if_neg (by simpa using h1), if_pos h2]
  · intro h1 h2 h3
    rw [DecoderSet.decode_rect, RArgs.new, if_neg (by simpa using h1),
      if_neg (not_lt.mpr h2), if_pos h3]

/-- C6 witness. -/
theorem decode_rect_preflight_witness :
    DecoderSet.decode_rect (R := Unit) (fun r => (.ok (), r)) ⟨.rgba, .u8⟩ ()
        ⟨4, 4⟩ ⟨2, 0, 4, 4⟩ 100 16 1000 = (.error .rectOutOfBounds, ()) :=
  (decode_rect_preflight (fun r => (.ok (), r)) ⟨.rgba, .u8⟩ () ⟨4, 4⟩ ⟨2, 0, 4, 4⟩
      100 16 1000).1 (by decide)

/-- C10. -/
theorem decode_empty_size {R : Type} :
    ∀ (optimized : Option (ColorFormat × (R → Except DecodeError Unit × R)))
      (inner : R → Except DecodeError Unit × R) (color : ColorFormat) (reader : R)
      (size : Size) (output_len memory_limit : ℕ),
      size.is_empty →
      (output_len = 0 →
        DecoderSet.decode optimized inner color reader size output_len memory_limit =
          (.ok (), reader)) ∧
      (output_len ≠ 0 →
        DecoderSet.decode optimized inner color reader size output_len memory_limit =
          (.error (.unexpectedBufferSize 0), reader)) := by
  intro optimized inner color reader size output_len memory_limit hempty
  have hpix : size.pixels = 0 := by
    rcases hempty with h | h <;> simp [Size.pixels, h]
  have hreq : satMul (Size.pixels size) color.bytes_per_pixel = 0 := by
    rw [hpix]
    simp [satMul]
  constructor
  · intro h0
    rw [DecoderSet.decode.eq_def, Args.new]
    dsimp only
    rw [hreq, if_neg (by omega), if_pos hempty]
  · intro h0
    rw [DecoderSet.decode.eq_def, Args.new]
    dsimp only
    rw [hreq, if_pos (by omega)]

/-- C10 witness. -/
theorem decode_empty_size_witness :
    DecoderSet.decode (R := ℕ) none (fun r => (.ok (), r + 1)) ⟨.rgb, .u16⟩ 7
        ⟨0, 5⟩ 0 1000 = (.ok (), 7) :=
  (decode_empty_size none (fun r => (.ok (), r + 1)) ⟨.rgb, .u16⟩ 7 ⟨0, 5⟩ 0 1000
      (by decide)).1 rfl

/-- C8. -/
theorem channel_adapter_table {P : Type} (n : NormC P) :
    (adapt_for n .grayscale .alpha = .fill n.one ∧
      adapt_for n .rgb .alpha = .fill n.one ∧
      adapt_for n .alpha .grayscale = .fill n.zero ∧
      adapt_for n .alpha .rgb = .fill n.zero) ∧
    (adapt_for n .rgb .grayscale = .map rgb_to_grayscale ∧
      adapt_for n .rgba .grayscale = .map rgba_to_grayscale ∧
      (∀ r g b : P, rgb_to_grayscale [r, g, b] = [r]) ∧
      (∀ r g b a : P, rgba_to_grayscale [r, g, b, a] = [r])) ∧
    (adapt_for n .alpha .rgba = .map (alpha_to_rgba n) ∧
      (∀ a : P, alpha_to_rgba n [a] = [n.zero, n.zero, n.zero, a])) ∧
    (adapt_for n .grayscale .rgb = .map grayscale_to_rgb ∧
      adapt_for n .grayscale .rgba = .map (grayscale_to_rgba n) ∧
      (∀ g : P, grayscale_to_rgb [g] = [g, g, g]) ∧
      (∀ g : P, grayscale_to_rgba n [g] = [g, g, g, n.one])) ∧
    (adapt_for n .rgb .rgba = .map (rgb_to_rgba n) ∧
      adapt_for n .rgba .rgb = .map rgba_to_rgb ∧
      (∀ r g b : P, rgb_to_rgba n [r, g, b] = [r, g, b, n.one]) ∧
      (∀ r g b a : P, rgba_to_rgb [r, g, b, a] = [r, g, b]) ∧
      adapt_for n .rgba .alpha = .map rgba_to_alpha) ∧
    (∀ c : Channels, adapt n c c = .direct) ∧
    (∀ (cto : Channels) (pixels : List (List P)),
      AdaptAction.apply .direct cto pixels = pixels) := by
  refine ⟨⟨rfl, rfl, rfl, rfl⟩, ⟨rfl, rfl, fun _ _ _ => rfl, fun _ _ _ _ => rfl⟩,
    ⟨rfl, fun _ => rfl⟩, ⟨rfl, rfl, fun _ => rfl, fun _ => rfl⟩,
    ⟨rfl, rfl, fun _ _ _ => rfl, fun _ _ _ _ => rfl, rfl⟩, ?_, fun _ _ => rfl⟩
  intro c
  rw [adapt, if_pos rfl]

/-- C8 witness. -/
theorem channel_adapter_table_witness :
    adapt_for (P := ℕ) ⟨0, 128, 255⟩ .rgb .alpha = .fill 255 :=
  (channel_adapter_table (P := ℕ) ⟨0, 128, 255⟩).1.2.1
